import Mathlib

/-!
Verification of the deterministic grid-simulation core of the
sokoban-sokoban repository, as a shallow embedding in Lean 4.

The embedding follows the Rust source:
- `src/movement_table.rs` (Direction, DIRECTION_ORDER, MovementTable,
  movement_table_update, move_willo_by_table),
- `src/gameplay/systems.rs` (check_death, schedule_level_card, check_goal),
- `src/graveyard/volatile.rs` (Volatile, sublimation).

The sokoban push-resolution module and the event-scheduler internals are
referenced by the sources but are not part of the provided tree; those two
pieces are modelled from the specification, and are marked as such in their
doc comments.
-/

namespace SokobanGame

/-- Integer 2D grid coordinate, mirroring `GridCoords` (bevy_ecs_ldtk). -/
structure GridCoords where
  x : Int
  y : Int
deriving DecidableEq, Repr

/-- Componentwise addition of coordinates (`*coords + direction.into()`). -/
def GridCoords.add (a b : GridCoords) : GridCoords := ⟨a.x + b.x, a.y + b.y⟩

/-- Componentwise subtraction (`*input_grid_coords - *table_grid_coords`). -/
def GridCoords.sub (a b : GridCoords) : GridCoords := ⟨a.x - b.x, a.y - b.y⟩

/-- `Direction` from `src/movement_table.rs`. -/
inductive Direction
  | Up
  | Left
  | Down
  | Right
deriving DecidableEq, Repr

/-- `From<Direction> for IVec2` from `src/movement_table.rs`. -/
def Direction.toVec : Direction → GridCoords
  | .Up => ⟨0, 1⟩
  | .Left => ⟨-1, 0⟩
  | .Down => ⟨0, -1⟩
  | .Right => ⟨1, 0⟩

/-- `DIRECTION_ORDER` from `src/movement_table.rs`: `[Up, Left, Down, Right]`,
as a total lookup on the index used by the 4x4 table. -/
def DIRECTION_ORDER : Fin 4 → Direction
  | 0 => .Up
  | 1 => .Left
  | 2 => .Down
  | 3 => .Right

/-- The key codes the game uses (subset of bevy `KeyCode` that appears in the
sources: W/A/S/D control tiles, Z undo, R restart). -/
inductive KeyCode
  | W
  | A
  | S
  | D
  | Z
  | R
deriving DecidableEq, Repr

/-- `RigidBody` from `src/gameplay/components.rs`. -/
inductive RigidBody
  | Static
  | Dynamic
deriving DecidableEq, Repr

/-! ## PushResolver (modelled from the spec)

The sokoban push-resolution module (`crate::sokoban`) is imported by
`src/willo.rs` and `src/graveyard/willo.rs` but its source file is not part
of the provided tree, so it is modelled from the specification text
(spec section 4.1). -/

/-- Modelled from the spec: the repository's `sokoban` module is absent from
the tree; a `GridMap` is "a mapping from integer grid coordinates to the set
of occupying entities plus each entity's rigidity", with level-dependent
bounds enforced by lookups.  Entities are opaque identities (here `Nat`). -/
structure GridMap where
  inBounds : GridCoords → Bool
  entities : List (Nat × GridCoords × RigidBody)

/-- Occupant lookup of a cell in the grid snapshot. -/
def GridMap.entityAt (g : GridMap) (c : GridCoords) : Option (Nat × RigidBody) :=
  (g.entities.find? (fun e => e.2.1 == c)).map (fun e => (e.1, e.2.2))

/-- Modelled from the spec: `PushResolver::resolve` (spec section 4.1), the
recursive chain walk, with explicit fuel for the recursion over cells:
let `dest = mover_coords + direction`;
out of bounds ⇒ `[]`; empty ⇒ `[mover]`; Static ⇒ `[]`;
Dynamic ⇒ recurse from `dest`, `[]` stays `[]`, otherwise append `mover`. -/
def resolve (g : GridMap) (d : Direction) : Nat → Nat → GridCoords → List Nat
  | 0, _, _ => []
  | fuel + 1, mover, coords =>
    let dest := coords.add d.toVec
    if g.inBounds dest then
      match g.entityAt dest with
      | none => [mover]
      | some (_, .Static) => []
      | some (e, .Dynamic) =>
        match resolve g d fuel e dest with
        | [] => []
        | l => l ++ [mover]
    else []

/-- The destination chain is blocked after `n` Dynamic entities: the cells
`coords + d, …, coords + n·d` hold Dynamic entities and the next cell holds a
Static entity or lies outside the grid bounds. -/
def chainBlocked (g : GridMap) (d : Direction) : Nat → GridCoords → Bool
  | 0, coords =>
    let dest := coords.add d.toVec
    !g.inBounds dest ||
      (match g.entityAt dest with
        | some (_, RigidBody.Static) => true
        | _ => false)
  | n + 1, coords =>
    let dest := coords.add d.toVec
    (g.inBounds dest &&
      (match g.entityAt dest with
        | some (_, RigidBody.Dynamic) => true
        | _ => false)) &&
      chainBlocked g d n dest

/-- C1: if the chain of consecutive Dynamic entities starting at the
destination cell ends at a Static entity or out of bounds, `resolve` returns
the empty sequence — no entity (including the mover) moves, for every chain
length `n ≥ 0` and every fuel. -/
theorem resolve_blocked_chain_eq_nil (g : GridMap) (d : Direction) :
    ∀ (n : Nat) (coords : GridCoords) (mover fuel : Nat),
      chainBlocked g d n coords = true → resolve g d fuel mover coords = [] := by
  intro n
  induction n with
  | zero =>
    intro coords mover fuel h
    cases fuel with
    | zero => rfl
    | succ fuel =>
      simp only [chainBlocked, Bool.or_eq_true, Bool.not_eq_true'] at h
      simp only [resolve]
      rcases h with h | h
      · simp [h]
      · cases hent : g.entityAt (coords.add d.toVec) with
        | none => rw [hent] at h; simp at h
        | some p =>
          rcases p with ⟨e, rb⟩
          cases rb with
          | Static => simp [hent]
          | Dynamic => rw [hent] at h; simp at h
  | succ n ih =>
    intro coords mover fuel h
    cases fuel with
    | zero => rfl
    | succ fuel =>
      simp only [chainBlocked, Bool.and_eq_true] at h
      obtain ⟨⟨hb, hdyn⟩, hchain⟩ := h
      cases hent : g.entityAt (coords.add d.toVec) with
      | none => rw [hent] at hdyn; simp at hdyn
      | some p =>
        rcases p with ⟨e, rb⟩
        cases rb with
        | Static => rw [hent] at hdyn; simp at hdyn
        | Dynamic =>
          simp only [resolve, hb, if_true, hent]
          rw [ih _ e fuel hchain]

/-- A concrete grid used by the witnesses: a Dynamic block at (1,0) followed
by a Static wall at (2,0), all cells in bounds. -/
def wallGrid : GridMap :=
  { inBounds := fun _ => true
    entities := [(1, ⟨1, 0⟩, RigidBody.Dynamic), (2, ⟨2, 0⟩, RigidBody.Static)] }

/-- Witness for C1: pushing right at (0,0) into a one-block chain backed by a
wall resolves to the empty move set. -/
theorem resolve_blocked_chain_eq_nil_witness :
    resolve wallGrid Direction.Right 5 0 ⟨0, 0⟩ = [] :=
  resolve_blocked_chain_eq_nil wallGrid Direction.Right 1 ⟨0, 0⟩ 0 5 (by decide)

/-! ## Player state and death check (`src/gameplay/systems.rs`) -/

/-- `PlayerState` from `src/gameplay/components.rs` (identical to
`WilloState` in `src/willo.rs`). -/
inductive PlayerState
  | Waiting
  | Dead
  | RankMove (k : KeyCode)
  | FileMove (k : KeyCode)
deriving DecidableEq, Repr

/-- `check_death` from `src/gameplay/systems.rs`: the single player
`(entity, coords, state)` dies when some exorcism block shares its
coordinates, unless already Dead.  Returns the new state and the list of
emitted `DeathEvent` payloads (the player entity). -/
def check_death (player : Nat × GridCoords × PlayerState)
    (exorcisms : List (Nat × GridCoords)) : PlayerState × List Nat :=
  let (entity, coords, state) := player
  if state != PlayerState.Dead && exorcisms.any (fun e => e.2 == coords) then
    (PlayerState.Dead, [entity])
  else
    (state, [])

/-- C8: when the player is not already Dead and a hazard cell shares its
coordinates, the state becomes Dead and exactly one death notification
carrying the player entity is emitted; when already Dead, or when no hazard
shares the coordinates, the state is unchanged and no notification is
emitted. -/
theorem check_death_spec (e : Nat) (c : GridCoords) (s : PlayerState)
    (exorcisms : List (Nat × GridCoords)) :
    (s ≠ PlayerState.Dead → (∃ h ∈ exorcisms, h.2 = c) →
        check_death (e, c, s) exorcisms = (PlayerState.Dead, [e]))
    ∧ (s = PlayerState.Dead → check_death (e, c, s) exorcisms = (s, []))
    ∧ ((∀ h ∈ exorcisms, h.2 ≠ c) →
        check_death (e, c, s) exorcisms = (s, [])) := by
  refine ⟨?_, ?_, ?_⟩
  · intro hs hhaz
    have hany : exorcisms.any (fun x => x.2 == c) = true := by
      rw [List.any_eq_true]
      obtain ⟨h, hmem, hc⟩ := hhaz
      exact ⟨h, hmem, by simp [hc]⟩
    simp [check_death, hany, hs]
  · intro hs
    simp [check_death, hs]
  · intro hnone
    have hany : exorcisms.any (fun x => x.2 == c) = false := by
      rw [Bool.eq_false_iff]
      intro hcontra
      rw [List.any_eq_true] at hcontra
      obtain ⟨h, hmem, hc⟩ := hcontra
      exact hnone h hmem (by simpa using hc)
    simp [check_death, hany]

/-- Witness for C8: a player at (1,1), not Dead, standing on an exorcism
block, dies with one notification. -/
theorem check_death_spec_witness :
    check_death (3, ⟨1, 1⟩, PlayerState.Waiting) [(9, ⟨1, 1⟩)]
      = (PlayerState.Dead, [3]) :=
  (check_death_spec 3 ⟨1, 1⟩ PlayerState.Waiting [(9, ⟨1, 1⟩)]).1
    (by decide) ⟨(9, ⟨1, 1⟩), by simp⟩

/-! ## Level-card scheduling (`src/gameplay/systems.rs`)

The `event_scheduler` module itself is not part of the provided tree; its
`schedule` operation is modelled from the specification (spec section 4.6):
it enqueues a (payload, fire-delay) pair. -/

/-- `LevelCardEvent` from the gameplay module (levels identified by index). -/
inductive LevelCardEvent
  | Rise (level : Nat)
  | Block (level : Nat)
  | Fall
  | Despawn
deriving DecidableEq, Repr

/-- Modelled from the spec: the `event_scheduler` module is absent from the
tree; `EventScheduler<T>` holds a queue of (payload, fire-delay-millis)
pairs, and `schedule(payload, delay)` enqueues one event. -/
structure EventScheduler (T : Type) where
  queue : List (T × Nat)
deriving DecidableEq, Repr

/-- Modelled from the spec: `schedule` enqueues an event to fire after the
given delay. -/
def EventScheduler.schedule {T : Type} (s : EventScheduler T) (payload : T)
    (delayMillis : Nat) : EventScheduler T :=
  ⟨s.queue ++ [(payload, delayMillis)]⟩

/-- `schedule_level_card` from `src/gameplay/systems.rs`: schedules the
Rise/Block/Fall/Despawn cascade at u64 millisecond offsets
`offset`, `1500 + offset`, `3000 + offset`, `4500 + offset`. -/
def schedule_level_card (q : EventScheduler LevelCardEvent) (level : Nat)
    (offsetMillis : Nat) : EventScheduler LevelCardEvent :=
  ((((q.schedule (LevelCardEvent.Rise level) (offsetMillis % 2 ^ 64)).schedule
      (LevelCardEvent.Block level) ((1500 + offsetMillis) % 2 ^ 64)).schedule
      LevelCardEvent.Fall ((3000 + offsetMillis) % 2 ^ 64)).schedule
      LevelCardEvent.Despawn ((4500 + offsetMillis) % 2 ^ 64))

/-- C9: one call to `schedule_level_card` with base offset `o` (any u64 value
whose additions do not overflow) enqueues exactly four level-card events, in
the order Rise, Block, Fall, Despawn, with delays `o`, `o + 1500`,
`o + 3000`, `o + 4500` milliseconds. -/
theorem schedule_level_card_spec (q : EventScheduler LevelCardEvent)
    (level : Nat) (o : Nat) (ho : o + 4500 < 2 ^ 64) :
    (schedule_level_card q level o).queue
      = q.queue ++
        [(LevelCardEvent.Rise level, o),
         (LevelCardEvent.Block level, o + 1500),
         (LevelCardEvent.Fall, o + 3000),
         (LevelCardEvent.Despawn, o + 4500)] := by
  simp only [schedule_level_card, EventScheduler.schedule, List.append_assoc,
    List.cons_append, List.nil_append]
  have h0 : o % 2 ^ 64 = o := Nat.mod_eq_of_lt (by omega)
  have h1 : (1500 + o) % 2 ^ 64 = o + 1500 := by
    rw [Nat.mod_eq_of_lt (by omega)]; omega
  have h2 : (3000 + o) % 2 ^ 64 = o + 3000 := by
    rw [Nat.mod_eq_of_lt (by omega)]; omega
  have h3 : (4500 + o) % 2 ^ 64 = o + 4500 := by
    rw [Nat.mod_eq_of_lt (by omega)]; omega
  rw [h0, h1, h2, h3]

/-- Witness for C9: the call made by `check_goal` (offset 800) enqueues the
cascade at 800/2300/3800/5300 ms. -/
theorem schedule_level_card_spec_witness :
    (schedule_level_card ⟨[]⟩ 1 800).queue
      = [(LevelCardEvent.Rise 1, 800),
         (LevelCardEvent.Block 1, 2300),
         (LevelCardEvent.Fall, 3800),
         (LevelCardEvent.Despawn, 5300)] := by
  have := schedule_level_card_spec ⟨[]⟩ 1 800 (by norm_num)
  simpa using this

/-! ## Movement table (`src/movement_table.rs`) -/

/-- `MovementTable.table`: the 4x4 array `[[Option<KeyCode>; 4]; 4]`,
indexed as `table rank file`. -/
abbrev MoveTable := Fin 4 → Fin 4 → Option KeyCode

/-- Generic shape of the source's accumulate-by-append loops:
  `for x in l { if p x { out.push(f x) } }`. -/
theorem foldl_append_if {α β : Type} (p : α → Bool) (f : α → β) :
    ∀ (l : List α) (acc : List β),
      l.foldl (fun a x => if p x then a ++ [f x] else a) acc
        = acc ++ (l.filter p).map f := by
  intro l
  induction l with
  | nil => intro acc; simp
  | cons x xs ih =>
    intro acc
    cases h : p x <;>
      simp [List.foldl_cons, h, ih, List.filter_cons, List.append_assoc]

/-- Generic shape of the source's nested accumulate-by-append loops. -/
theorem foldl_foldl_append {α β γ : Type} (q : α → γ → Bool) (f : γ → β)
    (inner : List γ) :
    ∀ (l : List α) (acc : List β),
      l.foldl
          (fun a x =>
            inner.foldl (fun a2 y => if q x y then a2 ++ [f y] else a2) a) acc
        = acc ++ (l.map (fun x => (inner.filter (q x)).map f)).flatten := by
  intro l
  induction l with
  | nil => intro acc; simp
  | cons x xs ih =>
    intro acc
    simp [List.foldl_cons, foldl_append_if (q x) f inner acc, ih,
      List.append_assoc]

/-- The rank pass of `move_willo_by_table`: for each rank (row) of the table
that contains a matching cell, a movement event in that rank's direction. -/
def rank_move_events (table : MoveTable) (key : KeyCode) : List Direction :=
  (List.finRange 4).foldl
    (fun acc i =>
      if (List.finRange 4).any (fun j => table i j == some key) then
        acc ++ [DIRECTION_ORDER i]
      else acc) []

/-- The file pass of `move_willo_by_table`: for each cell of the table that
matches, a movement event in that cell's column direction. -/
def file_move_events (table : MoveTable) (key : KeyCode) : List Direction :=
  (List.finRange 4).foldl
    (fun acc i =>
      (List.finRange 4).foldl
        (fun acc2 j =>
          if table i j == some key then acc2 ++ [DIRECTION_ORDER j] else acc2)
        acc) []

/-- One timer-gated step of `move_willo_by_table` from
`src/movement_table.rs` (identical to `move_player_by_table` in
`src/gameplay/systems.rs`): given whether the movement timer has finished,
returns the new state, the emitted movement events in emission order, and
whether the timer was reset. -/
def move_willo_by_table (table : MoveTable) (willo : PlayerState)
    (timerFinished : Bool) : PlayerState × List Direction × Bool :=
  if timerFinished then
    match willo with
    | PlayerState.RankMove key =>
      (PlayerState.FileMove key, rank_move_events table key, true)
    | PlayerState.FileMove key =>
      (PlayerState.Waiting, file_move_events table key, true)
    | s => (s, [], false)
  else (willo, [], false)

/-- C2: on timer expiry in `RankMove k`, one movement command per rank
containing a cell matching `k`, in that rank's direction, then the state
becomes `FileMove k` with the timer reset; in `FileMove k`, one movement
command per matching cell, in that cell's column direction, then `Waiting`
with the timer reset; in `Waiting`/`Dead`, or without timer expiry, no
event is emitted and the state is unchanged. -/
theorem move_willo_by_table_spec (t : MoveTable) (k : KeyCode) :
    (move_willo_by_table t (PlayerState.RankMove k) true
        = (PlayerState.FileMove k,
           ((List.finRange 4).filter (fun i =>
               (List.finRange 4).any (fun j => t i j == some k))).map
             DIRECTION_ORDER,
           true))
    ∧ (move_willo_by_table t (PlayerState.FileMove k) true
        = (PlayerState.Waiting,
           ((List.finRange 4).map (fun i =>
               ((List.finRange 4).filter (fun j => t i j == some k)).map
                 DIRECTION_ORDER)).flatten,
           true))
    ∧ (move_willo_by_table t PlayerState.Waiting true
        = (PlayerState.Waiting, [], false))
    ∧ (move_willo_by_table t PlayerState.Dead true
        = (PlayerState.Dead, [], false))
    ∧ (∀ s, move_willo_by_table t s false = (s, [], false)) := by
  refine ⟨?_, ?_, rfl, rfl, fun s => rfl⟩
  · simp only [move_willo_by_table, if_true, rank_move_events]
    rw [foldl_append_if (fun i => (List.finRange 4).any fun j => t i j == some k)
      DIRECTION_ORDER (List.finRange 4) []]
    simp
  · simp only [move_willo_by_table, if_true, file_move_events]
    rw [foldl_foldl_append (fun i j => t i j == some k) DIRECTION_ORDER
      (List.finRange 4) (List.finRange 4) []]
    simp

/-- `movement_table_update` from `src/movement_table.rs`: clear the table to
all `None`, then for every input block write its key code at
`table[y_index][x_index]` where `diff = input_coords - table_coords`,
`x_index = diff.x - 1`, `y_index = -1 - diff.y`, whenever both indices lie
in `0..4`. -/
def movement_table_update (tableCoords : GridCoords)
    (blocks : List (GridCoords × KeyCode)) : MoveTable :=
  blocks.foldl
    (fun t b =>
      let diff := b.1.sub tableCoords
      let xIndex := diff.x - 1
      let yIndex := -1 - diff.y
      if 0 ≤ xIndex ∧ xIndex < 4 ∧ 0 ≤ yIndex ∧ yIndex < 4 then
        fun r f =>
          if r.1 = yIndex.toNat ∧ f.1 = xIndex.toNat then some b.2 else t r f
      else t)
    (fun _ _ => none)

/-- The grid cell scanned into table cell `(rank r, file f)`: file offset
`f + 1` to the right of the anchor, rank offset `r + 1` downward in y
(i.e. `-(r + 1)` relative). -/
def windowPos (anchor : GridCoords) (r f : Fin 4) : GridCoords :=
  ⟨anchor.x + f.1 + 1, anchor.y - r.1 - 1⟩

/-- A block coordinate hits table cell `(r, f)` exactly when it is the
window position of that cell. -/
theorem update_hits_iff (a c : GridCoords) (r f : Fin 4) :
    ((0 ≤ (c.sub a).x - 1 ∧ (c.sub a).x - 1 < 4 ∧ 0 ≤ -1 - (c.sub a).y ∧
        -1 - (c.sub a).y < 4) ∧
      (r.1 = (-1 - (c.sub a).y).toNat ∧ f.1 = ((c.sub a).x - 1).toNat))
    ↔ c = windowPos a r f := by
  obtain ⟨cx, cy⟩ := c
  obtain ⟨ax, ay⟩ := a
  have hr : r.1 < 4 := r.2
  have hf : f.1 < 4 := f.2
  simp only [GridCoords.sub, windowPos, GridCoords.mk.injEq]
  omega

/-- One write step of `movement_table_update`. -/
def tableWriteStep (tableCoords : GridCoords) (t : MoveTable)
    (b : GridCoords × KeyCode) : MoveTable :=
  let diff := b.1.sub tableCoords
  let xIndex := diff.x - 1
  let yIndex := -1 - diff.y
  if 0 ≤ xIndex ∧ xIndex < 4 ∧ 0 ≤ yIndex ∧ yIndex < 4 then
    fun r f =>
      if r.1 = yIndex.toNat ∧ f.1 = xIndex.toNat then some b.2 else t r f
  else t

theorem movement_table_update_eq_foldl (a : GridCoords)
    (blocks : List (GridCoords × KeyCode)) :
    movement_table_update a blocks = blocks.foldl (tableWriteStep a) (fun _ _ => none) :=
  rfl

/-- A non-hitting block leaves a cell unchanged. -/
theorem tableWriteStep_no_hit (a : GridCoords) (t : MoveTable)
    (b : GridCoords × KeyCode) (r f : Fin 4) (h : b.1 ≠ windowPos a r f) :
    tableWriteStep a t b r f = t r f := by
  simp only [tableWriteStep]
  by_cases hin : 0 ≤ (b.1.sub a).x - 1 ∧ (b.1.sub a).x - 1 < 4 ∧
      0 ≤ -1 - (b.1.sub a).y ∧ -1 - (b.1.sub a).y < 4
  · rw [if_pos hin]
    by_cases hidx : r.1 = (-1 - (b.1.sub a).y).toNat ∧ f.1 = ((b.1.sub a).x - 1).toNat
    · exact absurd ((update_hits_iff a b.1 r f).mp ⟨hin, hidx⟩) h
    · rw [if_neg hidx]
  · rw [if_neg hin]

/-- A hitting block writes its key to the cell. -/
theorem tableWriteStep_hit (a : GridCoords) (t : MoveTable)
    (b : GridCoords × KeyCode) (r f : Fin 4) (h : b.1 = windowPos a r f) :
    tableWriteStep a t b r f = some b.2 := by
  obtain ⟨hin, hidx⟩ := (update_hits_iff a b.1 r f).mpr h
  simp only [tableWriteStep]
  rw [if_pos hin]
  rw [if_pos hidx]

/-- C3 (amended): provided no two control tiles carrying different
identifiers occupy the same grid cell, the rebuilt table holds `some k` at
`(r, f)` iff a control tile with identifier `k` sits at the window position
(file offset `f+1` right, rank offset `r+1` up), and holds `none` iff no
control tile sits there.  (Without that proviso the last-iterated tile wins;
see the counterexample.) -/
theorem movement_table_update_spec (a : GridCoords)
    (blocks : List (GridCoords × KeyCode))
    (hinj : ∀ b1 ∈ blocks, ∀ b2 ∈ blocks, b1.1 = b2.1 → b1.2 = b2.2)
    (r f : Fin 4) :
    (∀ k, movement_table_update a blocks r f = some k ↔
        (windowPos a r f, k) ∈ blocks)
    ∧ (movement_table_update a blocks r f = none ↔
        ∀ k, (windowPos a r f, k) ∉ blocks) := by
  rw [movement_table_update_eq_foldl]
  induction blocks using List.reverseRecOn with
  | nil =>
    constructor
    · intro k; simp
    · simp
  | append_singleton bs b ih =>
    have hinj' : ∀ b1 ∈ bs, ∀ b2 ∈ bs, b1.1 = b2.1 → b1.2 = b2.2 := by
      intro b1 h1 b2 h2
      exact hinj b1 (List.mem_append_left _ h1) b2 (List.mem_append_left _ h2)
    obtain ⟨ih1, ih2⟩ := ih hinj'
    have hbmem : b ∈ bs ++ [b] := List.mem_append_right _ (by simp)
    rw [List.foldl_append, List.foldl_cons, List.foldl_nil]
    by_cases hhit : b.1 = windowPos a r f
    · rw [tableWriteStep_hit a _ b r f hhit]
      constructor
      · intro k
        constructor
        · intro hk
          cases hk
          refine List.mem_append_right _ ?_
          simp only [List.mem_singleton]
          rw [← hhit]
        · intro hmem
          rcases List.mem_append.mp hmem with hmem | hmem
          · have hkb : k = b.2 :=
              hinj (windowPos a r f, k) (List.mem_append_left _ hmem) b hbmem
                (by rw [hhit])
            rw [hkb]
          · simp only [List.mem_singleton] at hmem
            rw [← hmem]
      · constructor
        · intro hcontra; exact Option.noConfusion hcontra
        · intro hall
          exfalso
          refine hall b.2 (List.mem_append_right _ ?_)
          simp only [List.mem_singleton]
          rw [← hhit]
    · rw [tableWriteStep_no_hit a _ b r f hhit]
      constructor
      · intro k
        rw [ih1 k]
        constructor
        · intro h; exact List.mem_append_left _ h
        · intro h
          rcases List.mem_append.mp h with h | h
          · exact h
          · simp only [List.mem_singleton] at h
            exfalso; apply hhit
            rw [← h]
      · rw [ih2]
        constructor
        · intro hall k hk
          rcases List.mem_append.mp hk with hk | hk
          · exact hall k hk
          · simp only [List.mem_singleton] at hk
            exfalso; apply hhit
            rw [← hk]
        · intro hall k hk
          exact hall k (List.mem_append_left _ hk)

/-- Witness for C3 (amended): a single W control tile at the window position
of cell (0,0) makes the rebuilt table hold `some W` there. -/
theorem movement_table_update_spec_witness :
    movement_table_update ⟨0, 0⟩ [(⟨1, -1⟩, KeyCode.W)] 0 0 = some KeyCode.W :=
  ((movement_table_update_spec ⟨0, 0⟩ [(⟨1, -1⟩, KeyCode.W)]
      (by intro b1 h1 b2 h2 _; simp at h1 h2; rw [h1, h2]) 0 0).1 KeyCode.W).mpr
    (by decide)

/-- Counterexample for C3 as frozen: with two control tiles (keys W and A)
sharing the cell one right and one up of the anchor, the claimed equivalence
fails at rank 0, file 0, key W: the code leaves the last-iterated key (A) in
the cell, yet a W tile does sit at that window position. -/
theorem movement_table_update_counterexample :
    ¬ (movement_table_update ⟨0, 0⟩
          [(⟨1, -1⟩, KeyCode.W), (⟨1, -1⟩, KeyCode.A)] 0 0 = some KeyCode.W
        ↔ (windowPos ⟨0, 0⟩ 0 0, KeyCode.W)
            ∈ [((⟨1, -1⟩ : GridCoords), KeyCode.W), (⟨1, -1⟩, KeyCode.A)]) := by
  decide

/-! ## Goal check (`src/gameplay/systems.rs`) -/

/-- A goal entity: identity, current `met` flag, grid coordinates. -/
structure GoalItem where
  ent : Nat
  met : Bool
  coords : GridCoords
deriving DecidableEq, Repr

/-- `GoalEvent` from the gameplay module. -/
inductive GoalEvent
  | Met (stone : Nat) (goal : Nat)
  | UnMet (goal : Nat)
deriving DecidableEq, Repr

/-- Result of one `check_goal` run: the updated goals, the emitted goal
events in emission order, and whether the run triggered the transition to
`GameState::LevelTransition`. -/
structure GoalCheckResult where
  goals : List GoalItem
  events : List GoalEvent
  levelTransition : Bool
deriving DecidableEq, Repr

/-- The per-goal body of `check_goal`'s outer loop: find the first input
block sharing the goal's coordinates (the inner loop breaks at the first
match), update the flag, emit a Met/UnMet event on a flag transition, and
report whether this goal is met. -/
def check_goal_one (blocks : List (Nat × GridCoords)) (g : GoalItem) :
    GoalItem × List GoalEvent × Bool :=
  match blocks.find? (fun b => b.2 == g.coords) with
  | some (stone, _) =>
    ({ g with met := true },
      if g.met then [] else [GoalEvent.Met stone g.ent], true)
  | none =>
    ({ g with met := false },
      if g.met then [GoalEvent.UnMet g.ent] else [], false)

/-- `check_goal` from `src/gameplay/systems.rs`: with zero goal entities
return immediately (no events, no state change); otherwise process every
goal in order and trigger the level transition iff every goal is met. -/
def check_goal (goals : List GoalItem) (blocks : List (Nat × GridCoords)) :
    GoalCheckResult :=
  if goals.isEmpty then ⟨goals, [], false⟩
  else
    let results := goals.map (check_goal_one blocks)
    ⟨results.map (fun r => r.1),
      (results.map (fun r => r.2.1)).flatten,
      results.all (fun r => r.2.2)⟩

/-- Whether some input block currently shares the goal's coordinates. -/
def goalFound (blocks : List (Nat × GridCoords)) (g : GoalItem) : Bool :=
  blocks.any (fun b => b.2 == g.coords)

/-- Recognizer of a "goal met" notification for a given goal entity. -/
def isMetFor (gid : Nat) : GoalEvent → Bool
  | GoalEvent.Met _ g => g == gid
  | _ => false

/-- Recognizer of a "goal unmet" notification for a given goal entity. -/
def isUnMetFor (gid : Nat) : GoalEvent → Bool
  | GoalEvent.UnMet g => g == gid
  | _ => false

/-- The goal entity a notification is about. -/
def eventGoalId : GoalEvent → Nat
  | GoalEvent.Met _ g => g
  | GoalEvent.UnMet g => g

theorem goalFound_of_find_none (blocks : List (Nat × GridCoords))
    (g : GoalItem) (h : blocks.find? (fun b => b.2 == g.coords) = none) :
    goalFound blocks g = false := by
  rw [List.find?_eq_none] at h
  unfold goalFound
  rw [Bool.eq_false_iff]
  intro hc
  obtain ⟨b, hb, hbc⟩ := List.any_eq_true.mp hc
  exact h b hb hbc

theorem goalFound_of_find_some (blocks : List (Nat × GridCoords))
    (g : GoalItem) (p : Nat × GridCoords)
    (h : blocks.find? (fun b => b.2 == g.coords) = some p) :
    goalFound blocks g = true := by
  have hp := List.find?_some h
  exact List.any_eq_true.mpr ⟨p, List.mem_of_find?_eq_some h, hp⟩

theorem check_goal_one_fst (blocks : List (Nat × GridCoords)) (g : GoalItem) :
    (check_goal_one blocks g).1 = { g with met := goalFound blocks g } := by
  unfold check_goal_one
  cases h : blocks.find? (fun b => b.2 == g.coords) with
  | none => rw [goalFound_of_find_none blocks g h]
  | some p =>
    obtain ⟨stone, c⟩ := p
    rw [goalFound_of_find_some blocks g (stone, c) h]

theorem check_goal_one_found (blocks : List (Nat × GridCoords)) (g : GoalItem) :
    (check_goal_one blocks g).2.2 = goalFound blocks g := by
  unfold check_goal_one
  cases h : blocks.find? (fun b => b.2 == g.coords) with
  | none => rw [goalFound_of_find_none blocks g h]
  | some p =>
    obtain ⟨stone, c⟩ := p
    rw [goalFound_of_find_some blocks g (stone, c) h]

theorem check_goal_one_countP_met (blocks : List (Nat × GridCoords))
    (g : GoalItem) (gid : Nat) :
    ((check_goal_one blocks g).2.1).countP (isMetFor gid)
      = if g.ent = gid ∧ g.met = false ∧ goalFound blocks g = true then 1
        else 0 := by
  cases h : blocks.find? (fun b => b.2 == g.coords) with
  | none =>
    rw [goalFound_of_find_none blocks g h]
    cases hm : g.met <;>
      simp [check_goal_one, h, hm, List.countP_cons, List.countP_nil, isMetFor]
  | some p =>
    obtain ⟨stone, c⟩ := p
    rw [goalFound_of_find_some blocks g (stone, c) h]
    cases hm : g.met
    · by_cases hg : g.ent = gid <;>
        simp [check_goal_one, h, hm, List.countP_cons, List.countP_nil,
          isMetFor, hg]
    · simp [check_goal_one, h, hm, List.countP_nil]

theorem check_goal_one_countP_unmet (blocks : List (Nat × GridCoords))
    (g : GoalItem) (gid : Nat) :
    ((check_goal_one blocks g).2.1).countP (isUnMetFor gid)
      = if g.ent = gid ∧ g.met = true ∧ goalFound blocks g = false then 1
        else 0 := by
  cases h : blocks.find? (fun b => b.2 == g.coords) with
  | none =>
    rw [goalFound_of_find_none blocks g h]
    cases hm : g.met
    · simp [check_goal_one, h, hm, List.countP_nil]
    · by_cases hg : g.ent = gid <;>
        simp [check_goal_one, h, hm, List.countP_cons, List.countP_nil,
          isUnMetFor, hg]
  | some p =>
    obtain ⟨stone, c⟩ := p
    rw [goalFound_of_find_some blocks g (stone, c) h]
    cases hm : g.met <;>
      simp [check_goal_one, h, hm, List.countP_cons, List.countP_nil,
        isUnMetFor]

theorem check_goal_one_event_ids (blocks : List (Nat × GridCoords))
    (g : GoalItem) :
    ∀ ev ∈ (check_goal_one blocks g).2.1, eventGoalId ev = g.ent := by
  unfold check_goal_one
  cases h : blocks.find? (fun b => b.2 == g.coords) with
  | none =>
    cases hm : g.met <;> simp [eventGoalId]
  | some p =>
    obtain ⟨stone, c⟩ := p
    cases hm : g.met <;> simp [eventGoalId]

/-- `all` over a mapped list, for maps that change the element type. -/
theorem all_map_general {α β : Type} (l : List α) (f : α → β) (p : β → Bool) :
    (l.map f).all p = l.all (fun x => p (f x)) := by
  induction l with
  | nil => rfl
  | cons a tl ih => simp [List.all_cons, ih]

/-- `all` only depends on the predicate's values on the list. -/
theorem all_congr_mem {α : Type} (p q : α → Bool) :
    ∀ xs : List α, (∀ y ∈ xs, p y = q y) → xs.all p = xs.all q := by
  intro xs
  induction xs with
  | nil => intro _; rfl
  | cons z zs ih =>
    intro hpq
    simp only [List.all_cons]
    rw [hpq z (List.mem_cons_self z zs)]
    rw [ih fun y hy => hpq y (List.mem_cons_of_mem z hy)]

/-- With pairwise-distinct goal entities, the total of a per-goal count that
vanishes away from one goal reduces to that goal's own count. -/
theorem map_sum_eq_single (f : GoalItem → Nat) :
    ∀ (goals : List GoalItem) (g : GoalItem), g ∈ goals →
      (goals.map GoalItem.ent).Nodup →
      (∀ g2 ∈ goals, g2.ent ≠ g.ent → f g2 = 0) →
      (goals.map f).sum = f g := by
  intro goals
  induction goals with
  | nil => intro g hmem; cases hmem
  | cons a tl ih =>
    intro g hmem hnd hz
    simp only [List.map_cons, List.nodup_cons] at hnd
    obtain ⟨hna, hndtl⟩ := hnd
    rcases List.mem_cons.mp hmem with hga | hgtl
    · subst hga
      simp only [List.map_cons, List.sum_cons]
      have htl : (tl.map f).sum = 0 := by
        apply List.sum_eq_zero
        intro x hx
        obtain ⟨g2, hg2, rfl⟩ := List.mem_map.mp hx
        refine hz g2 (List.mem_cons_of_mem _ hg2) ?_
        intro hcontra
        exact hna (hcontra ▸ List.mem_map_of_mem GoalItem.ent hg2)
      omega
    · have hane : a.ent ≠ g.ent := by
        intro hcontra
        exact hna (hcontra ▸ List.mem_map_of_mem GoalItem.ent hgtl)
      have hih := ih g hgtl hndtl
        (fun g2 hg2 => hz g2 (List.mem_cons_of_mem _ hg2))
      have hza := hz a (List.mem_cons_self a tl) hane
      simp only [List.map_cons, List.sum_cons]
      omega

/-- C4: whenever `check_goal` runs with at least one goal (goal entities
pairwise distinct), each goal's `met` flag ends true iff some input block
shares its coordinates; exactly one Met notification is emitted per
false→true transition and exactly one UnMet notification per true→false
transition, none otherwise; every notification names a present goal; and
the level transition fires iff every goal is met. -/
theorem check_goal_spec (goals : List GoalItem)
    (blocks : List (Nat × GridCoords)) (hne : goals ≠ [])
    (hnd : (goals.map GoalItem.ent).Nodup) :
    (check_goal goals blocks).goals
        = goals.map (fun g => { g with met := goalFound blocks g })
    ∧ (∀ g ∈ goals,
        (check_goal goals blocks).events.countP (isMetFor g.ent)
            = (if g.met = false ∧ goalFound blocks g = true then 1 else 0)
        ∧ (check_goal goals blocks).events.countP (isUnMetFor g.ent)
            = (if g.met = true ∧ goalFound blocks g = false then 1 else 0))
    ∧ (∀ ev ∈ (check_goal goals blocks).events,
        eventGoalId ev ∈ goals.map GoalItem.ent)
    ∧ (check_goal goals blocks).levelTransition
        = goals.all (goalFound blocks) := by
  have hemp : goals.isEmpty = false := List.isEmpty_eq_false.mpr hne
  unfold check_goal
  rw [hemp]
  simp only [Bool.false_eq_true, if_false, List.map_map]
  refine ⟨?_, ?_, ?_, ?_⟩
  · exact List.map_congr_left fun g _ => check_goal_one_fst blocks g
  · intro g hg
    constructor
    · rw [List.countP_flatten, List.map_map]
      have hz1 : ∀ g2 ∈ goals, g2.ent ≠ g.ent →
          ((check_goal_one blocks g2).2.1).countP (isMetFor g.ent) = 0 := by
        intro g2 _ hne2
        rw [check_goal_one_countP_met]
        simp [hne2]
      have hsum := map_sum_eq_single
        (fun g2 => ((check_goal_one blocks g2).2.1).countP (isMetFor g.ent))
        goals g hg hnd hz1
      have hmapeq :
          List.map (List.countP (isMetFor g.ent) ∘ (fun r => r.2.1) ∘
              check_goal_one blocks) goals
            = List.map (fun g2 =>
                ((check_goal_one blocks g2).2.1).countP (isMetFor g.ent))
              goals :=
        List.map_congr_left fun g2 _ => rfl
      rw [hmapeq, hsum]
      show ((check_goal_one blocks g).2.1).countP (isMetFor g.ent) = _
      rw [check_goal_one_countP_met]
      simp
    · rw [List.countP_flatten, List.map_map]
      have hz1 : ∀ g2 ∈ goals, g2.ent ≠ g.ent →
          ((check_goal_one blocks g2).2.1).countP (isUnMetFor g.ent) = 0 := by
        intro g2 _ hne2
        rw [check_goal_one_countP_unmet]
        simp [hne2]
      have hsum := map_sum_eq_single
        (fun g2 => ((check_goal_one blocks g2).2.1).countP (isUnMetFor g.ent))
        goals g hg hnd hz1
      have hmapeq :
          List.map (List.countP (isUnMetFor g.ent) ∘ (fun r => r.2.1) ∘
              check_goal_one blocks) goals
            = List.map (fun g2 =>
                ((check_goal_one blocks g2).2.1).countP (isUnMetFor g.ent))
              goals :=
        List.map_congr_left fun g2 _ => rfl
      rw [hmapeq, hsum]
      show ((check_goal_one blocks g).2.1).countP (isUnMetFor g.ent) = _
      rw [check_goal_one_countP_unmet]
      simp
  · intro ev hev
    rw [List.mem_flatten] at hev
    obtain ⟨l, hl, hevl⟩ := hev
    rw [List.mem_map] at hl
    obtain ⟨g, hg, rfl⟩ := hl
    rw [check_goal_one_event_ids blocks g ev hevl]
    exact List.mem_map_of_mem GoalItem.ent hg
  · show (List.map (check_goal_one blocks) goals).all (fun r => r.2.2)
        = goals.all (goalFound blocks)
    rw [all_map_general]
    exact all_congr_mem _ _ goals fun g _ => check_goal_one_found blocks g

theorem check_goal_spec_witness :
    (check_goal [⟨1, false, ⟨2, 2⟩⟩] [(5, ⟨2, 2⟩)]).levelTransition
      = [(⟨1, false, ⟨2, 2⟩⟩ : GoalItem)].all (goalFound [(5, ⟨2, 2⟩)]) :=
  (check_goal_spec [⟨1, false, ⟨2, 2⟩⟩] [(5, ⟨2, 2⟩)] (by decide)
    (by decide)).2.2.2

/-- C7: with zero goal entities, `check_goal` emits no goal event, schedules
nothing, and leaves the game state alone — the empty goal set is never
treated as level-complete, for every block configuration. -/
theorem check_goal_empty (blocks : List (Nat × GridCoords)) :
    check_goal [] blocks = ⟨[], [], false⟩ := by
  unfold check_goal
  rfl

/-! ## Volatile sublimation (`src/graveyard/volatile.rs`) -/

/-- `Volatile` component from `src/graveyard/volatile.rs`. -/
inductive Volatile
  | Solid
  | Sublimated
deriving DecidableEq, Repr

/-- `Volatile::is_solid`. -/
def Volatile.is_solid : Volatile → Bool
  | Volatile.Solid => true
  | Volatile.Sublimated => false

/-- `Volatile::sublimate`: `*self = Volatile::Sublimated`. -/
def Volatile.sublimate (_ : Volatile) : Volatile := Volatile.Sublimated

/-- One tracked volatile entity: identity, grid coordinates, volatile
state — the row `(Entity, &GridCoords, &mut Volatile)` of the query. -/
structure VolatileItem where
  ent : Nat
  coords : GridCoords
  vol : Volatile
deriving DecidableEq, Repr

/-- Sublimate the entity's volatile state. -/
def VolatileItem.sublimate (x : VolatileItem) : VolatileItem :=
  { x with vol := x.vol.sublimate }

/-- The source's pair condition against a fixed first element `a`:
`volatile_b.is_solid() && grid_coords_a == grid_coords_b`. -/
def hitsCoords (a : VolatileItem) (b : VolatileItem) : Bool :=
  b.vol.is_solid && b.coords == a.coords

/-- The moved-vs-moved loop of `sublimation` (`for index in 0..len - 1`
splitting `moved_volatiles[index..]` into head and tail): a head that is
still solid sublimates together with every later still-solid element
sharing its coordinates, then the walk continues on the mutated tail. -/
def sublimation_moved : List VolatileItem → List VolatileItem
  | [] => []
  | a :: rest =>
    if a.vol.is_solid then
      (if rest.any (hitsCoords a) then a.sublimate else a)
        :: sublimation_moved
          (rest.map (fun b => if hitsCoords a b then b.sublimate else b))
    else
      a :: sublimation_moved rest
termination_by l => l.length
decreasing_by
  · simp
  · simp

/-- The moved-vs-stationary loop of `sublimation`: each moved element that
is still solid sublimates together with every still-solid stationary
element sharing its coordinates. -/
def sublimation_stationary :
    List VolatileItem → List VolatileItem →
      List VolatileItem × List VolatileItem
  | [], st => ([], st)
  | a :: rest, st =>
    if a.vol.is_solid then
      let a2 := if st.any (hitsCoords a) then a.sublimate else a
      let st2 := st.map (fun b => if hitsCoords a b then b.sublimate else b)
      let r := sublimation_stationary rest st2
      (a2 :: r.1, r.2)
    else
      let r := sublimation_stationary rest st
      (a :: r.1, r.2)

/-- `sublimation` from `src/graveyard/volatile.rs`, as a function of the
moved/stationary partition of the volatile entities: the moved-vs-moved
loop followed by the moved-vs-stationary loop over the same vectors. -/
def sublimation (moved stationary : List VolatileItem) :
    List VolatileItem × List VolatileItem :=
  sublimation_stationary (sublimation_moved moved) stationary

/-- Number of solid volatiles at a coordinate. -/
def solidAt (l : List VolatileItem) (c : GridCoords) : Nat :=
  l.countP (fun x => x.vol.is_solid && x.coords == c)

/-- Specification of the moved-vs-moved loop: a moved entity stays solid
iff it was solid and it is the only solid moved entity at its coordinate. -/
def movedPhase1 (moved : List VolatileItem) (x : VolatileItem) :
    VolatileItem :=
  if x.vol.is_solid && solidAt moved x.coords == 1 then x else x.sublimate

/-- Specification of a moved entity's final state after the full pass. -/
def movedFinal (moved stationary : List VolatileItem) (x : VolatileItem) :
    VolatileItem :=
  if x.vol.is_solid && solidAt moved x.coords == 1 &&
      !(stationary.any (hitsCoords x)) then x
  else x.sublimate

/-- Specification of a stationary entity's final state after the full
pass. -/
def stationaryFinal (moved : List VolatileItem) (b : VolatileItem) :
    VolatileItem :=
  if b.vol.is_solid && solidAt moved b.coords == 1 then b.sublimate else b

theorem sublimate_of_not_solid (x : VolatileItem)
    (h : x.vol.is_solid = false) : x.sublimate = x := by
  obtain ⟨e, c, v⟩ := x
  cases v with
  | Solid => simp [Volatile.is_solid] at h
  | Sublimated => rfl

theorem is_solid_sublimate (x : VolatileItem) :
    x.sublimate.vol.is_solid = false := rfl

theorem solidAt_cons (a : VolatileItem) (l : List VolatileItem)
    (c : GridCoords) :
    solidAt (a :: l) c
      = solidAt l c + (if a.vol.is_solid && a.coords == c then 1 else 0) := by
  unfold solidAt
  rw [List.countP_cons]

theorem solidAt_cons_not_solid (a : VolatileItem) (l : List VolatileItem)
    (c : GridCoords) (h : a.vol.is_solid = false) :
    solidAt (a :: l) c = solidAt l c := by
  rw [solidAt_cons, h]
  simp

/-- The pair condition against `a` is the counted predicate at `a.coords`. -/
theorem any_hits_iff (a : VolatileItem) (l : List VolatileItem) :
    l.any (hitsCoords a) = true ↔ 0 < solidAt l a.coords := by
  unfold solidAt hitsCoords
  rw [List.any_eq_true, List.countP_pos_iff]

/-- Mapping the conditional sublimation against `a` does not change the
solid count at other coordinates. -/
theorem solidAt_map_hits (a : VolatileItem) (l : List VolatileItem)
    (c : GridCoords) (hc : c ≠ a.coords) :
    solidAt (l.map (fun b => if hitsCoords a b then b.sublimate else b)) c
      = solidAt l c := by
  unfold solidAt
  rw [List.countP_map]
  apply List.countP_congr
  intro b _
  show ((fun x => x.vol.is_solid && x.coords == c)
      (if hitsCoords a b then b.sublimate else b)) = true
    ↔ (b.vol.is_solid && b.coords == c) = true
  by_cases hb : hitsCoords a b = true
  · rw [if_pos hb]
    unfold hitsCoords at hb
    rw [Bool.and_eq_true, beq_iff_eq] at hb
    have hbc : (b.coords == c) = false := by
      rw [beq_eq_false_iff_ne, hb.2]
      exact fun h => hc h.symm
    simp [VolatileItem.sublimate, Volatile.sublimate, Volatile.is_solid, hbc]
  · rw [if_neg hb]

/-- Mapping the conditional sublimation against `a` does not change any
pair check keyed at other coordinates. -/
theorem any_hits_map_hits (a r : VolatileItem) (l : List VolatileItem)
    (hc : r.coords ≠ a.coords) :
    (l.map (fun b => if hitsCoords a b then b.sublimate else b)).any
        (hitsCoords r)
      = l.any (hitsCoords r) := by
  rw [Bool.eq_iff_iff, any_hits_iff, any_hits_iff,
    solidAt_map_hits a l r.coords hc]

theorem sublimate_sublimate (x : VolatileItem) :
    x.sublimate.sublimate = x.sublimate := rfl

theorem movedPhase1_congr (l1 l2 : List VolatileItem) (y : VolatileItem)
    (h : solidAt l1 y.coords = solidAt l2 y.coords) :
    movedPhase1 l1 y = movedPhase1 l2 y := by
  unfold movedPhase1
  rw [h]

theorem solidAt_pos_of_mem (l : List VolatileItem) (y : VolatileItem)
    (hy : y ∈ l) (hs : y.vol.is_solid = true) : 0 < solidAt l y.coords :=
  List.countP_pos_iff.mpr ⟨y, hy, by simp [hs]⟩

/-- The moved-vs-moved loop computes `movedPhase1`: a moved entity ends
solid iff it entered solid and is the unique solid moved entity at its
coordinate. -/
theorem sublimation_moved_spec :
    ∀ (n : Nat) (moved : List VolatileItem), moved.length ≤ n →
      sublimation_moved moved = moved.map (movedPhase1 moved) := by
  intro n
  induction n with
  | zero =>
    intro moved hlen
    rw [List.eq_nil_of_length_eq_zero (Nat.le_zero.mp hlen)]
    simp [sublimation_moved]
  | succ n ih =>
    intro moved hlen
    cases moved with
    | nil => simp [sublimation_moved]
    | cons a rest =>
      rw [List.length_cons, Nat.succ_le_succ_iff] at hlen
      cases ha : a.vol.is_solid
      · have hstep : sublimation_moved (a :: rest)
            = a :: sublimation_moved rest := by
          simp [sublimation_moved, ha]
        rw [hstep, ih rest hlen, List.map_cons]
        congr 1
        · unfold movedPhase1
          rw [ha]
          simp [sublimate_of_not_solid a ha]
        · exact List.map_congr_left fun y _ =>
            movedPhase1_congr rest (a :: rest) y
              (solidAt_cons_not_solid a rest y.coords ha).symm
      · have hstep : sublimation_moved (a :: rest)
            = (if rest.any (hitsCoords a) then a.sublimate else a)
              :: sublimation_moved
                (rest.map (fun b => if hitsCoords a b then b.sublimate else b)) := by
          simp [sublimation_moved, ha]
        rw [hstep,
          ih (rest.map (fun b => if hitsCoords a b then b.sublimate else b))
            (by rw [List.length_map]; exact hlen),
          List.map_cons, List.map_map]
        congr 1
        · have hcnt : solidAt (a :: rest) a.coords
              = solidAt rest a.coords + 1 := by
            rw [solidAt_cons, ha]
            simp
          unfold movedPhase1
          rw [hcnt, ha]
          cases hany : rest.any (hitsCoords a)
          · have h0 : solidAt rest a.coords = 0 := by
              have hiff := any_hits_iff a rest
              rw [hany] at hiff
              have hnot : ¬ 0 < solidAt rest a.coords := fun hpos =>
                Bool.false_ne_true (hiff.mpr hpos)
              omega
            rw [h0]
            simp
          · have hpos : 0 < solidAt rest a.coords := by
              have hiff := any_hits_iff a rest
              exact hiff.mp hany
            have hbeq : (solidAt rest a.coords + 1 == 1) = false := by
              rw [beq_eq_false_iff_ne]
              omega
            rw [hbeq]
            simp
        · apply List.map_congr_left
          intro y hyr
          show movedPhase1
              (rest.map (fun b => if hitsCoords a b then b.sublimate else b))
              (if hitsCoords a y then y.sublimate else y)
            = movedPhase1 (a :: rest) y
          by_cases hyhit : hitsCoords a y = true
          · rw [if_pos hyhit]
            have hh : y.vol.is_solid = true ∧ (y.coords == a.coords) = true := by
              have hx := hyhit
              unfold hitsCoords at hx
              rw [Bool.and_eq_true] at hx
              exact hx
            have hys : y.vol.is_solid = true := hh.1
            have hyc : y.coords = a.coords := beq_iff_eq.mp hh.2
            have hac : (a.coords == y.coords) = true := by
              rw [beq_iff_eq, hyc]
            have hge : 0 < solidAt rest y.coords :=
              solidAt_pos_of_mem rest y hyr hys
            have hcnt : solidAt (a :: rest) y.coords
                = solidAt rest y.coords + 1 := by
              rw [solidAt_cons, ha, hac]
              simp
            have hbeq : (solidAt (a :: rest) y.coords == 1) = false := by
              rw [beq_eq_false_iff_ne, hcnt]
              omega
            unfold movedPhase1
            rw [hbeq, is_solid_sublimate]
            simp [sublimate_sublimate]
          · rw [if_neg hyhit]
            by_cases hys : y.vol.is_solid = true
            · have hyc : y.coords ≠ a.coords := by
                intro hcontra
                exact hyhit (by simp [hitsCoords, hys, hcontra])
              apply movedPhase1_congr
              rw [solidAt_map_hits a rest y.coords hyc, solidAt_cons, ha]
              have hac : (a.coords == y.coords) = false := by
                rw [beq_eq_false_iff_ne]
                exact fun h => hyc h.symm
              rw [hac]
              simp
            · have hysf : y.vol.is_solid = false := by
                cases h : y.vol.is_solid
                · rfl
                · exact absurd h hys
              unfold movedPhase1
              rw [hysf]
              simp

/-- The moved-vs-stationary loop, under the precondition that solid moved
entities occupy pairwise-distinct coordinates (which phase one guarantees):
a solid moved entity sublimates iff some solid stationary entity shares its
coordinates, and a solid stationary entity sublimates iff some solid moved
entity shares its coordinates. -/
theorem sublimation_stationary_spec (ml : List VolatileItem) :
    ∀ (st : List VolatileItem), (∀ c, solidAt ml c ≤ 1) →
      sublimation_stationary ml st
        = (ml.map (fun a =>
              if a.vol.is_solid && st.any (hitsCoords a) then a.sublimate
              else a),
           st.map (fun b =>
              if b.vol.is_solid && ml.any (hitsCoords b) then b.sublimate
              else b)) := by
  induction ml with
  | nil =>
    intro st _
    simp [sublimation_stationary]
  | cons a rest ih =>
    intro st hml
    have hml' : ∀ c, solidAt rest c ≤ 1 := by
      intro c
      have := hml c
      rw [solidAt_cons] at this
      omega
    cases ha : a.vol.is_solid
    · have hstep : sublimation_stationary (a :: rest) st
          = (a :: (sublimation_stationary rest st).1,
             (sublimation_stationary rest st).2) := by
        simp [sublimation_stationary, ha]
      rw [hstep, ih st hml', Prod.mk.injEq]
      refine ⟨?_, ?_⟩
      · simp only [List.map_cons]
        congr 1
        rw [ha]
        simp
      · apply List.map_congr_left
        intro b _
        have hany : List.any (a :: rest) (hitsCoords b)
            = rest.any (hitsCoords b) := by
          rw [List.any_cons]
          have hba : hitsCoords b a = false := by
            simp [hitsCoords, ha]
          rw [hba]
          simp
        rw [hany]
    · have hrest0 : solidAt rest a.coords = 0 := by
        have := hml a.coords
        rw [solidAt_cons, ha] at this
        simp at this
        omega
      have hstep : sublimation_stationary (a :: rest) st
          = ((if st.any (hitsCoords a) then a.sublimate else a)
              :: (sublimation_stationary rest
                  (st.map (fun b => if hitsCoords a b then b.sublimate else b))).1,
             (sublimation_stationary rest
                 (st.map (fun b => if hitsCoords a b then b.sublimate else b))).2) := by
        simp [sublimation_stationary, ha]
      rw [hstep,
        ih (st.map (fun b => if hitsCoords a b then b.sublimate else b)) hml',
        Prod.mk.injEq]
      refine ⟨?_, ?_⟩
      · simp only [List.map_cons]
        congr 1
        · rw [ha]
          simp
        · apply List.map_congr_left
          intro r hr
          by_cases hrs : r.vol.is_solid = true
          · have hrc : r.coords ≠ a.coords := by
              intro hcontra
              have hpos : 0 < solidAt rest a.coords := by
                rw [← hcontra]
                exact solidAt_pos_of_mem rest r hr hrs
              omega
            rw [any_hits_map_hits a r st hrc]
          · have hrf : r.vol.is_solid = false := by
              cases h : r.vol.is_solid
              · rfl
              · exact absurd h hrs
            rw [hrf]
            simp
      · rw [List.map_map]
        apply List.map_congr_left
        intro b _
        simp only [Function.comp_apply]
        by_cases hab : hitsCoords a b = true
        · have hbs : b.vol.is_solid = true ∧ (b.coords == a.coords) = true := by
            have hx := hab
            unfold hitsCoords at hx
            rw [Bool.and_eq_true] at hx
            exact hx
          rw [if_pos hab]
          have hba : hitsCoords b a = true := by
            have hac : (a.coords == b.coords) = true := by
              rw [beq_iff_eq]
              exact (beq_iff_eq.mp hbs.2).symm
            simp [hitsCoords, ha, hac]
          rw [List.any_cons, hba]
          rw [is_solid_sublimate]
          simp [hbs.1]
        · rw [if_neg hab]
          rw [List.any_cons]
          by_cases hbs : b.vol.is_solid = true
          · have hbc : (b.coords == a.coords) = false := by
              cases h : (b.coords == a.coords)
              · rfl
              · exact absurd (by simp [hitsCoords, hbs, h]) hab
            have hba : hitsCoords b a = false := by
              have hac : (a.coords == b.coords) = false := by
                rw [beq_eq_false_iff_ne]
                exact fun h => (beq_eq_false_iff_ne.mp hbc) h.symm
              simp [hitsCoords, ha, hac]
            rw [hba]
            simp
          · have hbf : b.vol.is_solid = false := by
              cases h : b.vol.is_solid
              · rfl
              · exact absurd h hbs
            rw [hbf]
            simp

/-- After phase one, each coordinate hosts at most one solid moved entity:
exactly one when the input had exactly one, none otherwise. -/
theorem solidAt_movedPhase1_map (moved : List VolatileItem) (c : GridCoords) :
    solidAt (moved.map (movedPhase1 moved)) c
      = if solidAt moved c = 1 then 1 else 0 := by
  have hl : solidAt (moved.map (movedPhase1 moved)) c
      = List.countP
          ((fun x => x.vol.is_solid && x.coords == c) ∘ movedPhase1 moved)
          moved := by
    unfold solidAt
    rw [List.countP_map]
  rw [hl]
  by_cases h1 : solidAt moved c = 1
  · rw [if_pos h1]
    have hcongr : List.countP
        ((fun x => x.vol.is_solid && x.coords == c) ∘ movedPhase1 moved) moved
        = List.countP (fun x => x.vol.is_solid && x.coords == c) moved := by
      apply List.countP_congr
      intro x _
      simp only [Function.comp_apply]
      unfold movedPhase1
      by_cases hxs : (x.vol.is_solid && solidAt moved x.coords == 1) = true
      · rw [if_pos hxs]
      · rw [if_neg hxs]
        constructor
        · intro hcon
          rw [Bool.and_eq_true, is_solid_sublimate] at hcon
          exact absurd hcon.1 (by simp)
        · intro hcon
          rw [Bool.and_eq_true, beq_iff_eq] at hcon
          exact absurd (by rw [hcon.1, hcon.2, h1]; rfl : _ = true) hxs
    rw [hcongr]
    exact h1
  · rw [if_neg h1]
    rw [List.countP_eq_zero]
    intro x _
    simp only [Function.comp_apply]
    unfold movedPhase1
    by_cases hxs : (x.vol.is_solid && solidAt moved x.coords == 1) = true
    · rw [if_pos hxs]
      intro hcon
      rw [Bool.and_eq_true, beq_iff_eq] at hcon
      rw [Bool.and_eq_true] at hxs
      exact h1 (hcon.2 ▸ beq_iff_eq.mp hxs.2)
    · rw [if_neg hxs]
      intro hcon
      rw [Bool.and_eq_true, is_solid_sublimate] at hcon
      exact absurd hcon.1 (by simp)

/-- The full `sublimation` pass computes `movedFinal`/`stationaryFinal`:
a moved entity ends solid iff it entered solid, no other solid moved entity
shares its cell, and no solid stationary entity shares its cell; a
stationary entity ends solid iff it entered solid and the number of solid
moved entities on its cell is not exactly one. -/
theorem sublimation_spec (moved st : List VolatileItem) :
    sublimation moved st
      = (moved.map (movedFinal moved st), st.map (stationaryFinal moved)) := by
  unfold sublimation
  rw [sublimation_moved_spec moved.length moved (Nat.le_refl _)]
  rw [sublimation_stationary_spec (moved.map (movedPhase1 moved)) st
    (by
      intro c
      rw [solidAt_movedPhase1_map]
      by_cases h : solidAt moved c = 1
      · rw [if_pos h]
      · rw [if_neg h]
        omega)]
  rw [Prod.mk.injEq]
  refine ⟨?_, ?_⟩
  · rw [List.map_map]
    apply List.map_congr_left
    intro x _
    simp only [Function.comp_apply]
    unfold movedPhase1 movedFinal
    by_cases hc : (x.vol.is_solid && solidAt moved x.coords == 1) = true
    · have hc2 := hc
      rw [Bool.and_eq_true] at hc2
      rw [if_pos hc]
      cases hany : st.any (hitsCoords x)
      · rw [hc]
        simp [hany, hc2.1]
      · rw [hc]
        simp [hany, hc2.1]
    · rw [if_neg hc]
      have hcf : (x.vol.is_solid && solidAt moved x.coords == 1) = false := by
        cases h : (x.vol.is_solid && solidAt moved x.coords == 1)
        · rfl
        · exact absurd h hc
      rw [hcf]
      simp [is_solid_sublimate]
  · apply List.map_congr_left
    intro b _
    have hany : (moved.map (movedPhase1 moved)).any (hitsCoords b)
        = (solidAt moved b.coords == 1) := by
      rw [Bool.eq_iff_iff, any_hits_iff, solidAt_movedPhase1_map, beq_iff_eq]
      by_cases h : solidAt moved b.coords = 1
      · simp [h]
      · simp [h]
    rw [hany]
    rfl

/-- The entity identified by `e` ended Sublimated somewhere in the pass
result. -/
def sublimatedIn (p : List VolatileItem × List VolatileItem) (e : Nat) :
    Prop :=
  ∃ x ∈ p.1 ++ p.2, x.ent = e ∧ x.vol = Volatile.Sublimated

/-- C5: the sublimation pass is order-independent — for every partition
into moved and stationary entities and every permutation of the moved
enumeration order, the final set of Sublimated entities is the same. -/
theorem sublimation_order_independent
    (moved moved2 stationary : List VolatileItem)
    (hperm : moved.Perm moved2) (e : Nat) :
    sublimatedIn (sublimation moved stationary) e
      ↔ sublimatedIn (sublimation moved2 stationary) e := by
  have hcnt : ∀ c, solidAt moved c = solidAt moved2 c := by
    intro c
    unfold solidAt
    exact hperm.countP_eq _
  have hmf : movedFinal moved stationary = movedFinal moved2 stationary := by
    funext x
    unfold movedFinal
    rw [hcnt x.coords]
  have hsf : stationaryFinal moved = stationaryFinal moved2 := by
    funext b
    unfold stationaryFinal
    rw [hcnt b.coords]
  rw [sublimation_spec, sublimation_spec, hmf, hsf]
  have hp : (moved.map (movedFinal moved2 stationary)
        ++ stationary.map (stationaryFinal moved2)).Perm
      (moved2.map (movedFinal moved2 stationary)
        ++ stationary.map (stationaryFinal moved2)) :=
    (hperm.map _).append_right _
  unfold sublimatedIn
  constructor
  · rintro ⟨x, hx, hxe⟩
    exact ⟨x, hp.mem_iff.mp hx, hxe⟩
  · rintro ⟨x, hx, hxe⟩
    exact ⟨x, hp.mem_iff.mpr hx, hxe⟩

/-- Two solid movers on one cell and a solid bystander, for the witnesses. -/
def vmA : VolatileItem := ⟨1, ⟨0, 0⟩, Volatile.Solid⟩

/-- Second mover on the same cell as `vmA`. -/
def vmB : VolatileItem := ⟨2, ⟨0, 0⟩, Volatile.Solid⟩

/-- A stationary solid bystander on another cell. -/
def vsC : VolatileItem := ⟨3, ⟨5, 5⟩, Volatile.Solid⟩

/-- Witness for C5: two solid movers on the same cell, one solid bystander
elsewhere; swapping the two movers leaves the sublimated set unchanged. -/
theorem sublimation_order_independent_witness :
    sublimatedIn (sublimation [vmA, vmB] [vsC]) 1
      ↔ sublimatedIn (sublimation [vmB, vmA] [vsC]) 1 :=
  sublimation_order_independent [vmA, vmB] [vmB, vmA] [vsC]
    (List.Perm.swap vmB vmA []) 1

/-- C6: the Volatile transition is one-way and idempotent — `sublimate`
always produces Sublimated, and a pass never changes an already-Sublimated
entity (in either partition), so once Sublimated an entity stays Sublimated
across every sequence of runs. -/
theorem volatile_one_way :
    (∀ v : Volatile, v.sublimate = Volatile.Sublimated)
    ∧ (∀ (moved st : List VolatileItem) (i : Nat) (x : VolatileItem),
        moved[i]? = some x → x.vol = Volatile.Sublimated →
        (sublimation moved st).1[i]? = some x)
    ∧ (∀ (moved st : List VolatileItem) (i : Nat) (x : VolatileItem),
        st[i]? = some x → x.vol = Volatile.Sublimated →
        (sublimation moved st).2[i]? = some x) := by
  refine ⟨fun v => rfl, ?_, ?_⟩
  · intro moved st i x hx hvol
    rw [sublimation_spec]
    show (moved.map (movedFinal moved st))[i]? = some x
    rw [List.getElem?_map, hx]
    have hxs : x.vol.is_solid = false := by rw [hvol]; rfl
    have hfix : movedFinal moved st x = x := by
      unfold movedFinal
      rw [hxs]
      simp [sublimate_of_not_solid x hxs]
    simp [hfix]
  · intro moved st i x hx hvol
    rw [sublimation_spec]
    show (st.map (stationaryFinal moved))[i]? = some x
    rw [List.getElem?_map, hx]
    have hxs : x.vol.is_solid = false := by rw [hvol]; rfl
    have hfix : stationaryFinal moved x = x := by
      unfold stationaryFinal
      rw [hxs]
      simp
    simp [hfix]

/-- Witness for C6: an already-Sublimated moved entity is returned
unchanged by the pass. -/
theorem volatile_one_way_witness :
    (sublimation [(⟨1, ⟨0, 0⟩, Volatile.Sublimated⟩ : VolatileItem)] []).1[0]?
      = some (⟨1, ⟨0, 0⟩, Volatile.Sublimated⟩ : VolatileItem) :=
  volatile_one_way.2.1 [⟨1, ⟨0, 0⟩, Volatile.Sublimated⟩] [] 0
    ⟨1, ⟨0, 0⟩, Volatile.Sublimated⟩ rfl rfl

/-- Modelled from the spec: `utils::any_match_filter` (its module is not
under the provided tree) is the registered run condition "some entity
matches the query filter"; for `(With<Volatile>, Changed<GridCoords>)` that
is a changed-predicate over the volatile entities. -/
def any_match_filter (all : List VolatileItem) (changed : Nat → Bool) :
    Bool :=
  all.any (fun x => changed x.ent)

/-- `sublimation` with the source's index arithmetic made explicit: when
the moved partition is empty, `0..moved_volatiles.len() - 1` underflows the
unsigned length (and the slice suffix `moved_volatiles[index..]` would go
out of range), modelled as `none`; otherwise every loop index lies below
the length, every slice suffix is in bounds, and the pass runs. -/
def sublimation_checked (moved stationary : List VolatileItem) :
    Option (List VolatileItem × List VolatileItem) :=
  if moved.length = 0 then none
  else some (sublimation moved stationary)

/-- C10: under the registered run condition — some volatile entity changed
coordinates this tick — the moved partition is non-empty, the index
computation never underflows and no slice access is out of range, so the
pass runs (the `none` branch is unreachable). -/
theorem sublimation_panic_free (all : List VolatileItem)
    (changed : Nat → Bool) (hrun : any_match_filter all changed = true) :
    sublimation_checked (all.filter (fun x => changed x.ent))
        (all.filter (fun x => !(changed x.ent)))
      = some (sublimation (all.filter (fun x => changed x.ent))
          (all.filter (fun x => !(changed x.ent)))) := by
  unfold sublimation_checked
  rw [if_neg]
  intro hlen
  rw [List.length_eq_zero] at hlen
  obtain ⟨x, hx, hcx⟩ := List.any_eq_true.mp hrun
  have hmem : x ∈ all.filter (fun x => changed x.ent) :=
    List.mem_filter.mpr ⟨hx, hcx⟩
  rw [hlen] at hmem
  cases hmem

/-- Witness for C10: one changed volatile entity — the checked pass runs. -/
theorem sublimation_panic_free_witness :
    sublimation_checked ([vmA].filter (fun x => (fun _ => true) x.ent))
        ([vmA].filter (fun x => !((fun _ => true) x.ent)))
      = some (sublimation ([vmA].filter (fun x => (fun _ => true) x.ent))
          ([vmA].filter (fun x => !((fun _ => true) x.ent)))) :=
  sublimation_panic_free [vmA] (fun _ => true) (by decide)

end SokobanGame
